import Mathlib

set_option maxRecDepth 8192

/-!
# Verification of the `goreq` request builder (gobars/hebe, src/langs/goreq/goreq.go)

A shallow embedding of the fluent HTTP request builder `SuperAgent` and the
pure part of its dispatch pipeline (`EndBytes` / `MakeRequest`), together with
proofs settling the frozen specification claims.

Modelling conventions:
* Go maps (`map[string]interface{}`, `map[string]string`, `url.Values`) are
  association lists.  Map reads are by key lookup; Go map *iteration* order is
  unspecified at runtime, so wherever the code's observable result depends on
  that order (the `Types` scan in `EndBytes`) the model takes the iteration
  order as an explicit parameter and the theorems quantify over all
  permutations.  Where the result is order-independent per key (merging parsed
  objects or form fields into `Data`, applying headers), the model iterates in
  list order.
* `json.NewDecoder(...).Decode(&val)` with `UseNumber` is modelled by an
  executable JSON parser (`goJsonDecode`) that reads one value: whatever
  trailing bytes follow a completed top-level value are left unread and do
  not fail the current `Decode` (the scanner defers the complaint about a
  non-space byte after a top-level value to the next call), so `"01"`
  decodes as the number `0` with `"1"` left over.  Numbers are kept as
  their raw text (`json.Number`).
* `http.NewRequest`'s two error returns are modelled: the method-token check
  (`validMethodB`) and `net/url.Parse`'s accept/reject verdict
  (`urlParseOk`, a full model of Parse's failure conditions; the parsed URL
  structure itself is not consumed by any claim, so the query-string merge
  stays abstracted).  The json, form and default branches of `MakeRequest`
  propagate this error as the source does; the text and xml branches do not
  check it and crash on a nil request, modelled as `nilPanic`.
* `url.ParseQuery` is modelled by `goParseQuery` with the pre-Go-1.17
  semantics assumed by the source (the `Param` comment: `;` is a synonym for
  `&`).  Percent-decoding maps each decoded byte to the character of that code
  point, which agrees with Go on ASCII input.
* Network I/O is cut at the point where `EndBytes` would call `Client.Do`:
  the `Dispatch` outcome either aborts with the accumulated error list
  (modelling `return nil, nil, errs` with no I/O) or yields the materialized
  request that would be sent.
* `json.Marshal` of an arbitrary caller struct is not representable, so
  `SendStruct` / `queryStruct` take the struct's marshal-then-unmarshal image
  (a JSON object or an error) as the argument.
-/

namespace Goreq

/-- A dynamically typed Go value as stored in `SuperAgent.Data` /
`SuperAgent.SliceData`: the decode results of `encoding/json` (with
`UseNumber`, so numbers stay as their literal text) plus Go `[]string`
values, which the form-merging branch of `SendString` stores into `Data`.
In the `queryStruct` image a non-`str` constructor stands for any
non-string Go value (e.g. `float64`). -/
inductive GoVal where
  | str : String → GoVal
  | num : String → GoVal
  | bool : Bool → GoVal
  | null : GoVal
  | arr : List GoVal → GoVal
  | obj : List (String × GoVal) → GoVal
  | strList : List String → GoVal

/-- `map[string]interface{}` as an association list. -/
abbrev DataMap := List (String × GoVal)

/-- Go map assignment `m[k] = v`: overwrite in place, else append. -/
def mapInsert (m : DataMap) (k : String) (v : GoVal) : DataMap :=
  match m with
  | [] => [(k, v)]
  | (k0, v0) :: rest =>
    if k0 = k then (k0, v) :: rest else (k0, v0) :: mapInsert rest k v

/-- Go map read `m[k]` returning presence (`v, ok := m[k]`). -/
def mapLookup (m : DataMap) (k : String) : Option GoVal :=
  match m with
  | [] => none
  | (k0, v0) :: rest => if k0 = k then some v0 else mapLookup rest k

/-- `url.Values`: a multimap from key to the ordered list of its values. -/
abbrev UrlValues := List (String × List String)

/-- `url.Values.Add`: append `v` to the list at `k`, creating the key if
absent. -/
def uvAdd (q : UrlValues) (k v : String) : UrlValues :=
  match q with
  | [] => [(k, [v])]
  | (k0, vs) :: rest =>
    if k0 = k then (k0, vs ++ [v]) :: rest else (k0, vs) :: uvAdd rest k v

/-- `url.Values.Get`: first value for `k`, or `""` when absent/empty. -/
def uvGet (q : UrlValues) (k : String) : String :=
  match q with
  | [] => ""
  | (k0, vs) :: rest =>
    if k0 = k then (match vs with | [] => "" | v :: _ => v) else uvGet rest k

/-- The keys of a `url.Values`. -/
def uvKeys (q : UrlValues) : List String := q.map Prod.fst

/-- `map[string]string` operations for the `Header` map. -/
def strMapInsert (m : List (String × String)) (k v : String) :
    List (String × String) :=
  match m with
  | [] => [(k, v)]
  | (k0, v0) :: rest =>
    if k0 = k then (k0, v) :: rest else (k0, v0) :: strMapInsert rest k v

/-- Go map read `m[k]` on a `map[string]string`, `""` when absent. -/
def strMapGet (m : List (String × String)) (k : String) : String :=
  match m with
  | [] => ""
  | (k0, v0) :: rest => if k0 = k then v0 else strMapGet rest k

/-- The errors the modelled code paths can append to `SuperAgent.Errors`.
`invalidMethod` and `urlParse` are the two error returns of
`http.NewRequest` (an invalid method token, and a `net/url.Parse`
failure). -/
inductive GoError where
  | noMethod
  | typeIncorrect (t : String)
  | jsonMarshal
  | jsonUnmarshal
  | queryParse
  | invalidMethod (m : String)
  | urlParse (u : String)
deriving DecidableEq, Repr

/-! ## JSON decoding (`encoding/json`, stream `Decode` with `UseNumber`) -/

/-- JSON insignificant whitespace. -/
def jsonWS (c : Char) : Bool :=
  c = ' ' ∨ c = Char.ofNat 9 ∨ c = Char.ofNat 10 ∨ c = Char.ofNat 13

/-- Drop leading JSON whitespace. -/
def skipWS : List Char → List Char
  | [] => []
  | c :: rest => if jsonWS c then skipWS rest else c :: rest

def isHexChar (c : Char) : Bool :=
  c.isDigit ∨ ('a' ≤ c ∧ c ≤ 'f') ∨ ('A' ≤ c ∧ c ≤ 'F')

def hexCharVal (c : Char) : Nat :=
  if c.isDigit then c.toNat - 48
  else if 'a' ≤ c ∧ c ≤ 'f' then c.toNat - 87
  else c.toNat - 55

/-- A decoded `\uXXXX` code point; surrogate halves that do not pair are
replaced by U+FFFD as `encoding/json` does. -/
def jsonUnicodeChar (n : Nat) : Char :=
  if n < 0xD800 ∨ (0xDFFF < n ∧ n < 0x110000) then Char.ofNat n
  else Char.ofNat 0xFFFD

/-- Four hex digits, as in `\uXXXX`. -/
def parseHex4 : List Char → Option (Nat × List Char)
  | a :: b :: c :: d :: rest =>
    if isHexChar a ∧ isHexChar b ∧ isHexChar c ∧ isHexChar d then
      some (((hexCharVal a * 16 + hexCharVal b) * 16 + hexCharVal c) * 16 +
        hexCharVal d, rest)
    else none
  | _ => none

/-- One `\uXXXX` escape after the `\u` has been consumed, including the
surrogate-pair handling of `encoding/json`: a valid high+low pair combines,
an unpaired surrogate half becomes U+FFFD without consuming what follows. -/
def parseUEscape (l : List Char) : Option (Char × List Char) :=
  match parseHex4 l with
  | none => none
  | some (n, rest3) =>
    if 0xD800 ≤ n ∧ n ≤ 0xDBFF then
      match rest3 with
      | s1 :: s2 :: tail =>
        if s1 = Char.ofNat 92 ∧ s2 = 'u' then
          match parseHex4 tail with
          | some (m, rest4) =>
            if 0xDC00 ≤ m ∧ m ≤ 0xDFFF then
              some (jsonUnicodeChar
                (0x10000 + (n - 0xD800) * 1024 + (m - 0xDC00)), rest4)
            else some (Char.ofNat 0xFFFD, rest3)
          | none => some (Char.ofNat 0xFFFD, rest3)
        else some (Char.ofNat 0xFFFD, rest3)
      | _ => some (Char.ofNat 0xFFFD, rest3)
    else some (jsonUnicodeChar n, rest3)

/-- Characters of a JSON string literal after the opening quote, producing the
decoded characters and the input after the closing quote.  Mirrors the
`encoding/json` scanner: raw control characters below 0x20 are rejected, the
eight standard escapes and `\uXXXX` are decoded.  The fuel argument only
bounds recursion; every step consumes at least one character, so the
`length + 1` fuel supplied by callers cannot run out. -/
def parseStrChars : Nat → List Char → Option (List Char × List Char)
  | 0, _ => none
  | _ + 1, [] => none
  | fuel + 1, c :: rest =>
    if c = Char.ofNat 34 then some ([], rest)
    else if c = Char.ofNat 92 then
      match rest with
      | [] => none
      | e :: rest2 =>
        if e = Char.ofNat 34 ∨ e = Char.ofNat 92 ∨ e = '/' then
          (parseStrChars fuel rest2).map (fun p => (e :: p.1, p.2))
        else if e = 'b' then
          (parseStrChars fuel rest2).map (fun p => (Char.ofNat 8 :: p.1, p.2))
        else if e = 'f' then
          (parseStrChars fuel rest2).map (fun p => (Char.ofNat 12 :: p.1, p.2))
        else if e = 'n' then
          (parseStrChars fuel rest2).map (fun p => (Char.ofNat 10 :: p.1, p.2))
        else if e = 'r' then
          (parseStrChars fuel rest2).map (fun p => (Char.ofNat 13 :: p.1, p.2))
        else if e = 't' then
          (parseStrChars fuel rest2).map (fun p => (Char.ofNat 9 :: p.1, p.2))
        else if e = 'u' then
          match parseUEscape rest2 with
          | none => none
          | some (ch, r) =>
            (parseStrChars fuel r).map (fun p => (ch :: p.1, p.2))
        else none
    else if c.toNat < 0x20 then none
    else (parseStrChars fuel rest).map (fun p => (c :: p.1, p.2))

/-- Longest digit prefix. -/
def takeDigits : List Char → (List Char × List Char)
  | [] => ([], [])
  | c :: rest =>
    if c.isDigit then
      let p := takeDigits rest
      (c :: p.1, p.2)
    else ([], c :: rest)

/-- A JSON number literal (raw text), per the `encoding/json` grammar:
`-?(0|[1-9][0-9]*)(.[0-9]+)?([eE][+-]?[0-9]+)?`. -/
def parseNum (l : List Char) : Option (List Char × List Char) :=
  let (sign, l1) :=
    match l with
    | c :: r => if c = '-' then ([c], r) else (([] : List Char), l)
    | [] => (([] : List Char), [])
  match l1 with
  | [] => none
  | c :: r =>
    if ¬ c.isDigit then none
    else
      let (intPart, l2) :=
        if c = '0' then ([c], r)
        else
          let p := takeDigits r
          (c :: p.1, p.2)
      let fracRes : Option (List Char × List Char) :=
        match l2 with
        | '.' :: r2 =>
          match takeDigits r2 with
          | ([], _) => none
          | (ds, l3) => some ('.' :: ds, l3)
        | _ => some ([], l2)
      match fracRes with
      | none => none
      | some (fracPart, l3) =>
        let expRes : Option (List Char × List Char) :=
          match l3 with
          | e :: r3 =>
            if e = 'e' ∨ e = 'E' then
              let (se, r4) :=
                match r3 with
                | c2 :: r5 =>
                  if c2 = '+' ∨ c2 = '-' then ([e, c2], r5) else ([e], r3)
                | [] => ([e], r3)
              match takeDigits r4 with
              | ([], _) => none
              | (ds, l4) => some (se ++ ds, l4)
            else some ([], l3)
          | [] => some ([], l3)
        match expRes with
        | none => none
        | some (expPart, l5) => some (sign ++ intPart ++ fracPart ++ expPart, l5)

/-- Expect a literal keyword tail (`rue`, `alse`, `ull`). -/
def expectChars : List Char → List Char → Option (List Char)
  | [], l => some l
  | e :: es, c :: rest => if c = e then expectChars es rest else none
  | _ :: _, [] => none

mutual

/-- One JSON value, fuel-bounded (the fuel argument only bounds recursion
depth; `goJsonDecode` supplies fuel that cannot be exhausted on its input).
Returns the value and the unconsumed input. -/
def parseVal : Nat → List Char → Option (GoVal × List Char)
  | 0, _ => none
  | fuel + 1, l =>
    match skipWS l with
    | [] => none
    | c :: rest =>
      if c = Char.ofNat 34 then
        (parseStrChars (rest.length + 1) rest).map
          (fun p => (GoVal.str (String.mk p.1), p.2))
      else if c = Char.ofNat 123 then
        parseObjBody fuel (skipWS rest) []
      else if c = '[' then
        parseArrBody fuel (skipWS rest) []
      else if c = 't' then
        (expectChars ['r', 'u', 'e'] rest).map (fun r => (GoVal.bool true, r))
      else if c = 'f' then
        (expectChars ['a', 'l', 's', 'e'] rest).map
          (fun r => (GoVal.bool false, r))
      else if c = 'n' then
        (expectChars ['u', 'l', 'l'] rest).map (fun r => (GoVal.null, r))
      else if c = '-' ∨ c.isDigit then
        (parseNum (c :: rest)).map (fun p => (GoVal.num (String.mk p.1), p.2))
      else none

/-- Members of a JSON object after the opening brace (whitespace already
skipped); duplicate keys overwrite as `encoding/json` map decoding does. -/
def parseObjBody : Nat → List Char → List (String × GoVal) →
    Option (GoVal × List Char)
  | 0, _, _ => none
  | fuel + 1, l, acc =>
    match l with
    | [] => none
    | c :: rest =>
      if c = Char.ofNat 125 ∧ acc.isEmpty then some (GoVal.obj acc, rest)
      else if c = Char.ofNat 34 then
        match parseStrChars (rest.length + 1) rest with
        | none => none
        | some (kcs, r1) =>
          match skipWS r1 with
          | ':' :: r2 =>
            match parseVal fuel r2 with
            | none => none
            | some (v, r3) =>
              let acc2 := mapInsert acc (String.mk kcs) v
              match skipWS r3 with
              | ',' :: r4 => parseObjBody fuel (skipWS r4) acc2
              | c2 :: r4 =>
                if c2 = Char.ofNat 125 then some (GoVal.obj acc2, r4) else none
              | [] => none
          | _ => none
      else none

/-- Elements of a JSON array after the opening bracket (whitespace already
skipped). -/
def parseArrBody : Nat → List Char → List GoVal → Option (GoVal × List Char)
  | 0, _, _ => none
  | fuel + 1, l, acc =>
    match l with
    | [] => none
    | c :: rest =>
      if c = ']' ∧ acc.isEmpty then some (GoVal.arr acc.reverse, rest)
      else
        match parseVal fuel (c :: rest) with
        | none => none
        | some (v, r1) =>
          match skipWS r1 with
          | ',' :: r2 => parseArrBody fuel r2 (v :: acc)
          | c2 :: r2 =>
            if c2 = ']' then some (GoVal.arr (v :: acc).reverse, r2) else none
          | [] => none

end

/-- `json.NewDecoder(strings.NewReader(content)).Decode(&val)` with
`UseNumber`: reads one JSON value from the front of the stream.  Whatever
follows the completed value does not affect *this* `Decode`: when the byte
after a top-level value is not whitespace, `stateEndTop` records the
complaint for the *next* call but still reports `scanEnd`, so the current
call succeeds (`Decode("01")` yields the number `0`, `Decode("1&a=2")` the
number `1`).  A hard scan error inside the value (e.g. a minus sign,
decimal point or exponent marker not followed by a digit, which `parseNum`
rejects) still fails this call, as does running out of input mid-value. -/
def goJsonDecode (content : String) : Option GoVal :=
  match parseVal (4 * content.length + 16) content.toList with
  | none => none
  | some (v, _) => some v

/-! ## `url.ParseQuery` (pre-1.17 semantics: `;` is a separator) -/

/-- `url.QueryUnescape` on the characters of one key or value: `+` becomes a
space, `%XX` requires two hex digits and decodes to that byte's code point,
everything else passes through. -/
def queryUnescape : List Char → Option (List Char)
  | [] => some []
  | c :: rest =>
    if c = '%' then
      match rest with
      | a :: b :: rest2 =>
        if isHexChar a ∧ isHexChar b then
          (queryUnescape rest2).map
            (fun t => Char.ofNat (hexCharVal a * 16 + hexCharVal b) :: t)
        else none
      | _ => none
    else if c = '+' then (queryUnescape rest).map (fun t => ' ' :: t)
    else (queryUnescape rest).map (fun t => c :: t)

/-- Split on the separators `&` and `;`. -/
def splitSegs : List Char → List (List Char)
  | [] => [[]]
  | c :: rest =>
    if c = '&' ∨ c = ';' then [] :: splitSegs rest
    else
      match splitSegs rest with
      | seg :: segs => (c :: seg) :: segs
      | [] => [[c]]

/-- Split one segment at its first `=`; a segment without `=` has value `""`
(the whole segment is the key). -/
def splitEq : List Char → (List Char × List Char)
  | [] => ([], [])
  | c :: rest =>
    if c = '=' then ([], rest)
    else
      let p := splitEq rest
      (c :: p.1, p.2)

/-- Process the separator-split segments: empty segments are skipped, each
other segment contributes one `Add` after unescaping key and value; any
unescape error fails the whole parse (the caller only checks `err != nil`). -/
def parseQuerySegs : List (List Char) → UrlValues → Option UrlValues
  | [], acc => some acc
  | seg :: rest, acc =>
    if seg = [] then parseQuerySegs rest acc
    else
      match queryUnescape (splitEq seg).1, queryUnescape (splitEq seg).2 with
      | some k, some v =>
        parseQuerySegs rest (uvAdd acc (String.mk k) (String.mk v))
      | _, _ => none

/-- `url.ParseQuery` as used by `SendString` / `queryString`: `some` iff Go
returns a nil error, carrying the multimap of decoded keys and values. -/
def goParseQuery (content : String) : Option UrlValues :=
  parseQuerySegs (splitSegs content.toList) []

/-! ## `net/url.Parse` success/failure, as invoked by `http.NewRequest`

`MakeRequest` calls `http.NewRequest`, which fails when its method is not a
valid token or when `net/url.Parse` rejects the URL.  The URL structure
itself is not consumed by any claim (the query-string merge is abstracted),
so only Parse's accept/reject verdict is modelled — but that verdict is
modelled in full, mirroring `net/url`: control bytes, scheme syntax, the
colon-in-first-segment rule, authority splitting, userinfo validation,
host/zone/port validation and percent-escape well-formedness in each
component. -/

/-- A control byte in the URL (`stringContainsCTLByte`). -/
def isCTLChar (c : Char) : Bool := c.toNat < 0x20 ∨ c.toNat = 0x7f

/-- `net/url`'s `split(s, sep, cutc)`: cut at the first occurrence of
`sep`; with `cutc` the separator is dropped, otherwise it stays on the
right part.  No occurrence leaves the right part empty. -/
def goSplit (l : List Char) (sep : Char) (cutc : Bool) : List Char × List Char :=
  match l with
  | [] => ([], [])
  | c :: rest =>
    if c = sep then ([], if cutc then rest else c :: rest)
    else
      let p := goSplit rest sep cutc
      (c :: p.1, p.2)

/-- Index of the last occurrence of a character (`strings.LastIndex` on a
one-byte separator). -/
def lastIdxOf : List Char → Char → Option Nat
  | [], _ => none
  | c :: rest, t =>
    match lastIdxOf rest t with
    | some i => some (i + 1)
    | none => if c = t then some 0 else none

/-- Index of the first occurrence of the substring "%25"
(`strings.Index(host, "%25")`). -/
def idxPct25 : List Char → Option Nat
  | [] => none
  | c :: rest =>
    if c = '%' ∧ rest.take 2 = ['2', '5'] then some 0
    else (idxPct25 rest).map (· + 1)

/-- `shouldEscape(c, encodeHost)`: may `c` *not* appear raw in a host?
Alphanumerics, `-._~` and the sub-delims plus `:[]<>` and the double quote
are allowed. -/
def shouldEscapeHost (c : Char) : Bool :=
  ¬ (c.isAlphanum ∨ c = '-' ∨ c = '_' ∨ c = '.' ∨ c = '~' ∨ c = '!' ∨
    c = '$' ∨ c = '&' ∨ c = Char.ofNat 39 ∨ c = '(' ∨ c = ')' ∨ c = '*' ∨
    c = '+' ∨ c = ',' ∨ c = ';' ∨ c = '=' ∨ c = ':' ∨ c = '[' ∨ c = ']' ∨
    c = '<' ∨ c = '>' ∨ c = Char.ofNat 34)

/-- `unescape` succeeds in the path, userinfo and fragment modes: these
modes impose no raw-character restriction, so the only failure is a `%` not
followed by two hex digits. -/
def pctWellFormed : List Char → Bool
  | [] => true
  | c :: rest =>
    if c = '%' then
      match rest with
      | a :: b :: rest2 =>
        if isHexChar a ∧ isHexChar b then pctWellFormed rest2 else false
      | _ => false
    else pctWellFormed rest

/-- `unescape(…, encodeHost)` succeeds: escapes must be well-formed, an
escaped ASCII byte other than `%25` is rejected (first hex digit below 8),
`+` passes untouched, and a raw ASCII character that `shouldEscape` would
escape is rejected; bytes at or above 0x80 pass raw. -/
def unescapeHostOk : List Char → Bool
  | [] => true
  | c :: rest =>
    if c = '%' then
      match rest with
      | a :: b :: rest2 =>
        if isHexChar a ∧ isHexChar b then
          if hexCharVal a < 8 ∧ ¬ (a = '2' ∧ b = '5') then false
          else unescapeHostOk rest2
        else false
      | _ => false
    else if c = '+' then unescapeHostOk rest
    else if c.toNat < 0x80 ∧ shouldEscapeHost c then false
    else unescapeHostOk rest

/-- `unescape(…, encodeZone)` succeeds: like the host mode for raw
characters, but an escape may only carry `%25`, a space, or a byte that
could appear raw in a host. -/
def unescapeZoneOk : List Char → Bool
  | [] => true
  | c :: rest =>
    if c = '%' then
      match rest with
      | a :: b :: rest2 =>
        if isHexChar a ∧ isHexChar b then
          if ¬ (a = '2' ∧ b = '5') ∧ (hexCharVal a * 16 + hexCharVal b) ≠ 32 ∧
              shouldEscapeHost (Char.ofNat (hexCharVal a * 16 + hexCharVal b))
            then false
          else unescapeZoneOk rest2
        else false
      | _ => false
    else if c = '+' then unescapeZoneOk rest
    else if c.toNat < 0x80 ∧ shouldEscapeHost c then false
    else unescapeZoneOk rest

/-- `validOptionalPort`: empty, or a colon followed by digits only. -/
def validOptionalPort : List Char → Bool
  | [] => true
  | c :: rest => if c = ':' then rest.all Char.isDigit else false

/-- `parseHost`: an IP-literal in brackets needs a closing bracket, a valid
optional port after it and (when a `%25` zone marker is present) host/zone
validation of the pieces; otherwise an optional port after the last colon;
either way the host must unescape in host mode. -/
def parseHostOk (host : List Char) : Bool :=
  if host.take 1 = ['['] then
    match lastIdxOf host ']' with
    | none => false
    | some i =>
      if ¬ validOptionalPort (host.drop (i + 1)) then false
      else
        match idxPct25 (host.take i) with
        | some z =>
          unescapeHostOk (host.take z) ∧
            unescapeZoneOk ((host.take i).drop z) ∧
            unescapeHostOk (host.drop i)
        | none => unescapeHostOk host
  else
    match lastIdxOf host ':' with
    | some i =>
      if ¬ validOptionalPort (host.drop i) then false else unescapeHostOk host
    | none => unescapeHostOk host

/-- `validUserinfo`: the characters allowed in the userinfo component. -/
def validUserinfoChar (c : Char) : Bool :=
  c.isAlphanum ∨ c = '-' ∨ c = '.' ∨ c = '_' ∨ c = ':' ∨ c = '~' ∨ c = '!' ∨
    c = '$' ∨ c = '&' ∨ c = Char.ofNat 39 ∨ c = '(' ∨ c = ')' ∨ c = '*' ∨
    c = '+' ∨ c = ',' ∨ c = ';' ∨ c = '=' ∨ c = '%' ∨ c = '@'

/-- `parseAuthority`: the host (after the last `@`, if any) is validated
first; a userinfo part must pass `validUserinfo` and then unescape, as one
piece or as username and password cut at the first colon. -/
def parseAuthorityOk (authority : List Char) : Bool :=
  match lastIdxOf authority '@' with
  | none => parseHostOk authority
  | some i =>
    if ¬ parseHostOk (authority.drop (i + 1)) then false
    else
      if ¬ (authority.take i).all validUserinfoChar then false
      else if ':' ∈ authority.take i then
        pctWellFormed (goSplit (authority.take i) ':' true).1 ∧
          pctWellFormed (goSplit (authority.take i) ':' true).2
      else pctWellFormed (authority.take i)

/-- `getScheme`: `none` is the "missing protocol scheme" error (a colon
first); otherwise the scheme (possibly empty) and the rest.  A digit, `+`,
`-` or `.` may not start a scheme, and any other character means the whole
input is scheme-less. -/
def getSchemeGo : List Char → Nat → List Char → Option (List Char × List Char)
  | [], _, orig => some ([], orig)
  | c :: rest, i, orig =>
    if c.isAlpha then getSchemeGo rest (i + 1) orig
    else if c.isDigit ∨ c = '+' ∨ c = '-' ∨ c = '.' then
      if i = 0 then some ([], orig) else getSchemeGo rest (i + 1) orig
    else if c = ':' then
      if i = 0 then none else some (orig.take i, orig.drop (i + 1))
    else some ([], orig)

def getScheme (l : List Char) : Option (List Char × List Char) :=
  getSchemeGo l 0 l

/-- `net/url`'s `parse(rawURL, viaRequest := false)` succeeds.  Both arms of
the trailing-`?` (ForceQuery) special case leave the pre-`?` part as the
rest, and the raw query is never validated, so the query split is one cut.
A rootless path with a scheme is opaque and accepted as-is. -/
def urlParseMainOk (rawURL : List Char) : Bool :=
  if rawURL.any isCTLChar then false
  else if rawURL = ['*'] then true
  else
    match getScheme rawURL with
    | none => false
    | some (scheme, afterScheme) =>
      if (goSplit afterScheme '?' true).1.take 1 ≠ ['/'] then
        if scheme ≠ [] then true
        else if ':' ∈ (goSplit (goSplit afterScheme '?' true).1 '/' true).1
          then false
        else pctWellFormed (goSplit afterScheme '?' true).1
      else
        if (scheme ≠ [] ∨
            (goSplit afterScheme '?' true).1.take 3 ≠ ['/', '/', '/']) ∧
            (goSplit afterScheme '?' true).1.take 2 = ['/', '/'] then
          parseAuthorityOk
            (goSplit ((goSplit afterScheme '?' true).1.drop 2) '/' false).1 ∧
            pctWellFormed
              (goSplit ((goSplit afterScheme '?' true).1.drop 2) '/' false).2
        else pctWellFormed (goSplit afterScheme '?' true).1

/-- `url.Parse(rawURL)` succeeds: the fragment is cut at the first `#`, the
rest must parse, and a non-empty fragment must unescape (fragment mode). -/
def urlParseOk (rawURL : String) : Bool :=
  urlParseMainOk (goSplit rawURL.toList '#' true).1 ∧
    (if (goSplit rawURL.toList '#' true).2 = [] then true
      else pctWellFormed (goSplit rawURL.toList '#' true).2)

/-! ## The builder state (`SuperAgent`) and its mutators -/

/-- The per-request builder state of `goreq.SuperAgent`.  The `Client`,
`Transport`, `Debug`, `CurlCommand` and `logger` fields configure I/O and
logging and are outside the pure model; every field that the dispatch
pipeline reads is present. -/
structure SuperAgent where
  Url : String
  Method : String
  Header : List (String × String)
  TargetType : String
  ForceType : String
  Data : DataMap
  SliceData : List GoVal
  FormData : UrlValues
  QueryData : UrlValues
  BounceToRawString : Bool
  RawString : String
  Cookies : List (String × String)
  Errors : List GoError
  BasicAuth : String × String

def POST : String := "POST"
def GET : String := "GET"
def HEAD : String := "HEAD"
def PUT : String := "PUT"
def DELETE : String := "DELETE"
def PATCH : String := "PATCH"
def OPTIONS : String := "OPTIONS"

/-- `goreq.New()` (the pure fields; jar/transport/logger are I/O state). -/
def New : SuperAgent where
  Url := ""
  Method := ""
  Header := []
  TargetType := "json"
  ForceType := ""
  Data := []
  SliceData := []
  FormData := []
  QueryData := []
  BounceToRawString := false
  RawString := ""
  Cookies := []
  Errors := []
  BasicAuth := ("", "")

namespace SuperAgent

/-- `ClearSuperAgent`: reset the per-request fields for another request.
`BasicAuth` (and the client/transport configuration) is not touched. -/
def ClearSuperAgent (s : SuperAgent) : SuperAgent :=
  { s with
    Url := ""
    Method := ""
    Header := []
    Data := []
    SliceData := []
    FormData := []
    QueryData := []
    BounceToRawString := false
    RawString := ""
    ForceType := ""
    TargetType := "json"
    Cookies := []
    Errors := [] }

def Get (s : SuperAgent) (targetUrl : String) : SuperAgent :=
  { s.ClearSuperAgent with Method := GET, Url := targetUrl, Errors := [] }

def Post (s : SuperAgent) (targetUrl : String) : SuperAgent :=
  { s.ClearSuperAgent with Method := POST, Url := targetUrl, Errors := [] }

def Head (s : SuperAgent) (targetUrl : String) : SuperAgent :=
  { s.ClearSuperAgent with Method := HEAD, Url := targetUrl, Errors := [] }

def Put (s : SuperAgent) (targetUrl : String) : SuperAgent :=
  { s.ClearSuperAgent with Method := PUT, Url := targetUrl, Errors := [] }

def Delete (s : SuperAgent) (targetUrl : String) : SuperAgent :=
  { s.ClearSuperAgent with Method := DELETE, Url := targetUrl, Errors := [] }

def Patch (s : SuperAgent) (targetUrl : String) : SuperAgent :=
  { s.ClearSuperAgent with Method := PATCH, Url := targetUrl, Errors := [] }

def Options (s : SuperAgent) (targetUrl : String) : SuperAgent :=
  { s.ClearSuperAgent with Method := OPTIONS, Url := targetUrl, Errors := [] }

/-- `CustomMethod`: dispatch to the named verb or, for an unknown method
string, clear and set the method directly. -/
def CustomMethod (s : SuperAgent) (method targetUrl : String) : SuperAgent :=
  if method = POST then s.Post targetUrl
  else if method = GET then s.Get targetUrl
  else if method = HEAD then s.Head targetUrl
  else if method = PUT then s.Put targetUrl
  else if method = DELETE then s.Delete targetUrl
  else if method = PATCH then s.Patch targetUrl
  else if method = OPTIONS then s.Options targetUrl
  else
    { s.ClearSuperAgent with Method := method, Url := targetUrl, Errors := [] }

/-- `Set`: header assignment, last write wins per key. -/
def Set (s : SuperAgent) (param value : String) : SuperAgent :=
  { s with Header := strMapInsert s.Header param value }

/-- `SetBasicAuth`. -/
def SetBasicAuth (s : SuperAgent) (username password : String) : SuperAgent :=
  { s with BasicAuth := (username, password) }

/-- `AddCookie` (cookies are modelled by name/value). -/
def AddCookie (s : SuperAgent) (c : String × String) : SuperAgent :=
  { s with Cookies := s.Cookies ++ [c] }

/-- `AddCookies`. -/
def AddCookies (s : SuperAgent) (cs : List (String × String)) : SuperAgent :=
  { s with Cookies := s.Cookies ++ cs }

end SuperAgent

/-- The `Types` map of recognized content-type aliases, as a list of
key/value pairs (Go map iteration order over it is unspecified; theorems
about the scan in `EndBytes` quantify over permutations of this list). -/
def typesList : List (String × String) :=
  [("html", "text/html"),
   ("json", "application/json"),
   ("xml", "application/xml"),
   ("text", "text/plain"),
   ("urlencoded", "application/x-www-form-urlencoded"),
   ("form", "application/x-www-form-urlencoded"),
   ("form-data", "application/x-www-form-urlencoded")]

/-- Lookup in the `Types` map. -/
def typesLookup (k : String) : Option String :=
  match typesList.find? (fun kv => kv.1 = k) with
  | some kv => some kv.2
  | none => none

/-- `strings.ToLower` (character-wise; agrees with Go on ASCII keys). -/
def goToLower (s : String) : String := String.mk (s.toList.map Char.toLower)

namespace SuperAgent

/-- `Type` (named `SetType` here because `Type` is a Lean keyword): record a
forced content type if the alias is recognized, else append an error. -/
def SetType (s : SuperAgent) (typeStr : String) : SuperAgent :=
  if (typesLookup typeStr).isSome then { s with ForceType := typeStr }
  else { s with Errors := s.Errors ++ [GoError.typeIncorrect typeStr] }

/-- `Param`: add one query key/value pair directly. -/
def Param (s : SuperAgent) (key value : String) : SuperAgent :=
  { s with QueryData := uvAdd s.QueryData key value }

/-- `queryStruct`, with the struct argument abstracted by its
marshal-then-unmarshal image (`.error` when either JSON step fails).  Each
field is added to `QueryData` under its lower-cased key via the *unchecked*
type assertion `v.(string)`; a non-string field value therefore panics,
modelled by `none`.  A `none` result is a crash: no state (not even the
partially updated `QueryData`) survives it. -/
def queryStruct (s : SuperAgent) (image : Except GoError DataMap) :
    Option SuperAgent :=
  match image with
  | Except.error e => some { s with Errors := s.Errors ++ [e] }
  | Except.ok val =>
    match queryStructAdd val s.QueryData with
    | some q => some { s with QueryData := q }
    | none => none
where
  /-- The `for k, v := range val` loop body: lower-case the key, assert
  `v.(string)` and `Add`; `none` models the panic on a non-string value. -/
  queryStructAdd : DataMap → UrlValues → Option UrlValues
    | [], q => some q
    | (k, GoVal.str v) :: rest, q =>
      queryStructAdd rest (uvAdd q (goToLower k) v)
    | _ :: _, _ => none

/-- `SendSlice`: append the elements to `SliceData`. -/
def SendSlice (s : SuperAgent) (content : List GoVal) : SuperAgent :=
  { s with SliceData := s.SliceData ++ content }

/-- `SendStruct`, with the struct argument abstracted by its
marshal-then-decode (with `UseNumber`) image: merge the object's fields into
`Data`, or append the marshal/decode error. -/
def SendStruct (s : SuperAgent) (image : Except GoError DataMap) : SuperAgent :=
  match image with
  | Except.error e => { s with Errors := s.Errors ++ [e] }
  | Except.ok val =>
    { s with Data := val.foldl (fun m kv => mapInsert m kv.1 kv.2) s.Data }

end SuperAgent

/-- The form-branch merge of `SendString` for one parsed key `k`: start the
candidate array with `formVal.Get(k)` (the *first* value of `k` in this
call), then append the prior value if it was a string or a `[]string`; any
other prior value (e.g. a `json.Number`) is silently dropped by the type
switch.  A fresh key stores the single string. -/
def formMergeOne (fv : UrlValues) (m : DataMap) (k : String) : DataMap :=
  match mapLookup m k with
  | some oldValue =>
    let strArray : List String :=
      match oldValue with
      | GoVal.strList old => uvGet fv k :: old
      | GoVal.str old => [uvGet fv k, old]
      | _ => [uvGet fv k]
    mapInsert m k (GoVal.strList strArray)
  | none => mapInsert m k (GoVal.str (uvGet fv k))

/-- The `for k := range formVal` loop (each key of the parse result is
processed once; the per-key result does not depend on Go's map iteration
order, which the list order models). -/
def formMergeAll (fv : UrlValues) (m : DataMap) : DataMap :=
  fv.foldl (fun acc kv => formMergeOne fv acc kv.1) m

namespace SuperAgent

/-- The branch structure of `SendString` before the unconditional
`RawString` append: skipped entirely once `BounceToRawString` is set;
otherwise one JSON `Decode` attempt classifies the input as object (merge
into `Data`), array (`SendSlice`), or other value kind (bounce to raw);
on decode error one `url.ParseQuery` attempt merges form fields and sets
`TargetType = "form"`, and if that also fails the raw-string mode flag is
set. -/
def SendStringCore (s : SuperAgent) (content : String) : SuperAgent :=
  if s.BounceToRawString then s
  else
    match goJsonDecode content with
    | some (GoVal.obj kvs) =>
      { s with Data := kvs.foldl (fun m kv => mapInsert m kv.1 kv.2) s.Data }
    | some (GoVal.arr l) => s.SendSlice l
    | some _ => { s with BounceToRawString := true }
    | none =>
      match goParseQuery content with
      | some formVal =>
        { s with Data := formMergeAll formVal s.Data, TargetType := "form" }
      | none => { s with BounceToRawString := true }

/-- `SendString`: classify per `SendStringCore`, then unconditionally append
the raw input to `RawString`. -/
def SendString (s : SuperAgent) (content : String) : SuperAgent :=
  let t := s.SendStringCore content
  { t with RawString := t.RawString ++ content }

end SuperAgent

/-- The argument of `Send`, by the `reflect.Kind` classification `Send`
performs: a string, a struct (abstracted by its JSON image), a slice, or any
other kind (which `Send` ignores). -/
inductive SendContent where
  | str : String → SendContent
  | struct : Except GoError DataMap → SendContent
  | slice : List GoVal → SendContent
  | other : SendContent

namespace SuperAgent

/-- `Send`: dispatch on the runtime kind of the argument. -/
def Send (s : SuperAgent) (content : SendContent) : SuperAgent :=
  match content with
  | SendContent.str c => s.SendString c
  | SendContent.struct image => s.SendStruct image
  | SendContent.slice l => s.SendSlice l
  | SendContent.other => s

end SuperAgent

/-- The string inputs of a sequence of `Send` calls, in order. -/
def sendStringInputs : List SendContent → List String
  | [] => []
  | SendContent.str c :: rest => c :: sendStringInputs rest
  | _ :: rest => sendStringInputs rest

/-- Concatenation of a list of strings in order. -/
def concatStrings : List String → String
  | [] => ""
  | c :: rest => c ++ concatStrings rest

/-! ## JSON marshalling (`json.Marshal`) and form encoding (`Values.Encode`) -/

/-- One upper-case hex digit. -/
def upperHexDigit (n : Nat) : Char :=
  if n < 10 then Char.ofNat (48 + n) else Char.ofNat (55 + n)

/-- One lower-case hex digit (the JSON encoder writes `\u00xx` lower-case). -/
def lowerHexDigit (n : Nat) : Char :=
  if n < 10 then Char.ofNat (48 + n) else Char.ofNat (87 + n)

/-- String-quote a character the way `json.Marshal` does by default (HTML
escaping on: `&`, `<`, `>` are `\u00xx`-escaped; so are control characters,
U+2028 and U+2029; quote and backslash get short escapes). -/
def jsonQuoteChar (c : Char) : List Char :=
  if c = Char.ofNat 34 then [Char.ofNat 92, Char.ofNat 34]
  else if c = Char.ofNat 92 then [Char.ofNat 92, Char.ofNat 92]
  else if c = Char.ofNat 10 then [Char.ofNat 92, 'n']
  else if c = Char.ofNat 13 then [Char.ofNat 92, 'r']
  else if c = Char.ofNat 9 then [Char.ofNat 92, 't']
  else if c = '&' ∨ c = '<' ∨ c = '>' ∨ c.toNat < 0x20 then
    [Char.ofNat 92, 'u', '0', '0', lowerHexDigit (c.toNat / 16),
      lowerHexDigit (c.toNat % 16)]
  else if c.toNat = 0x2028 ∨ c.toNat = 0x2029 then
    [Char.ofNat 92, 'u', '2', '0', '2', lowerHexDigit (c.toNat % 16)]
  else [c]

/-- A JSON string literal for `s`. -/
def jsonQuote (s : String) : String :=
  String.mk (Char.ofNat 34 ::
    s.toList.foldr (fun c acc => jsonQuoteChar c ++ acc) [Char.ofNat 34])

/-- Insertion into a key-sorted association list (`json.Marshal` renders map
keys in sorted order). -/
def insertByKey (kv : String × GoVal) :
    List (String × GoVal) → List (String × GoVal)
  | [] => [kv]
  | kv0 :: rest =>
    if kv.1 ≤ kv0.1 then kv :: kv0 :: rest else kv0 :: insertByKey kv rest

/-- Sort an association list by key. -/
def sortByKey (l : List (String × GoVal)) : List (String × GoVal) :=
  l.foldr insertByKey []

/-- Comma-join. -/
def commaJoin : List String → String
  | [] => ""
  | [x] => x
  | x :: rest => x ++ "," ++ commaJoin rest

/-- `json.Marshal` of a `GoVal`, fuel-bounded (the fuel only bounds nesting
depth; callers supply `sizeOf`-large fuel that cannot run out).  Map keys are
sorted; `json.Number` renders as its raw text. -/
def marshalF : Nat → GoVal → String
  | 0, _ => ""
  | fuel + 1, v =>
    match v with
    | GoVal.str s => jsonQuote s
    | GoVal.num n => n
    | GoVal.bool b => if b then "true" else "false"
    | GoVal.null => "null"
    | GoVal.strList l => "[" ++ commaJoin (l.map jsonQuote) ++ "]"
    | GoVal.arr l => "[" ++ commaJoin (l.map (marshalF fuel)) ++ "]"
    | GoVal.obj kvs =>
      "\x7b" ++
        commaJoin ((sortByKey kvs).map
          (fun kv => jsonQuote kv.1 ++ ":" ++ marshalF fuel kv.2)) ++
        "\x7d"

mutual

/-- An executable size of a `GoVal`, used only as marshalling fuel. -/
def goValSz : GoVal → Nat
  | GoVal.str _ => 1
  | GoVal.num _ => 1
  | GoVal.bool _ => 1
  | GoVal.null => 1
  | GoVal.strList _ => 1
  | GoVal.arr l => 1 + goValSzL l
  | GoVal.obj kvs => 1 + goValSzP kvs

def goValSzL : List GoVal → Nat
  | [] => 0
  | v :: rest => goValSz v + goValSzL rest

def goValSzP : List (String × GoVal) → Nat
  | [] => 0
  | kv :: rest => goValSz kv.2 + goValSzP rest

end

/-- `json.Marshal`. -/
def jsonMarshal (v : GoVal) : String := marshalF (goValSz v + 1) v

/-- Is a byte left unescaped by `url.QueryEscape`? (`A-Z a-z 0-9 - _ . ~`). -/
def isUnreservedByte (b : UInt8) : Bool :=
  (65 ≤ b ∧ b ≤ 90) ∨ (97 ≤ b ∧ b ≤ 122) ∨ (48 ≤ b ∧ b ≤ 57) ∨
    b = 45 ∨ b = 95 ∨ b = 46 ∨ b = 126

/-- `url.QueryEscape`: per UTF-8 byte, space to `+`, unreserved bytes kept,
everything else `%XX` with upper-case hex. -/
def queryEscape (s : String) : String :=
  String.mk (s.toUTF8.toList.foldr
    (fun b acc =>
      if b = 32 then '+' :: acc
      else if isUnreservedByte b then Char.ofNat b.toNat :: acc
      else '%' :: upperHexDigit (b.toNat / 16) ::
        upperHexDigit (b.toNat % 16) :: acc)
    [])

/-- Insertion into a key-sorted `url.Values` list. -/
def insertUvByKey (kv : String × List String) : UrlValues → UrlValues
  | [] => [kv]
  | kv0 :: rest =>
    if kv.1 ≤ kv0.1 then kv :: kv0 :: rest else kv0 :: insertUvByKey kv rest

/-- `url.Values.Encode`: keys in sorted order, `k=v` pairs joined by `&`,
both sides query-escaped. -/
def uvEncode (q : UrlValues) : String :=
  let sorted := q.foldr insertUvByKey []
  let pairs := sorted.foldr
    (fun kv acc =>
      kv.2.foldr (fun v acc2 => (queryEscape kv.1 ++ "=" ++ queryEscape v) ::
        acc2) acc)
    []
  String.intercalate "&" pairs

/-- `changeMapToURLValues`: string values, `[]string` values (one `Add` per
element) and `json.Number` values are added; every other value type is
skipped. -/
def changeMapToURLValues (data : DataMap) : UrlValues :=
  data.foldl
    (fun q kv =>
      match kv.2 with
      | GoVal.str v => uvAdd q kv.1 v
      | GoVal.strList vs => vs.foldl (fun q2 v => uvAdd q2 kv.1 v) q
      | GoVal.num n => uvAdd q kv.1 n
      | _ => q)
    []

/-! ## Request materialization (`MakeRequest`) and dispatch (`EndBytes`) -/

/-- Is `c` a valid MIME header field byte (`net/textproto` token)? -/
def validHeaderFieldChar (c : Char) : Bool :=
  c.isAlphanum ∨ c = '!' ∨ c = '#' ∨ c = '$' ∨ c = '%' ∨ c = '&' ∨
    c = Char.ofNat 39 ∨ c = '*' ∨ c = '+' ∨ c = '-' ∨ c = '.' ∨ c = '^' ∨
    c = '_' ∨ c = Char.ofNat 96 ∨ c = '|' ∨ c = '~'

/-- The canonicalization pass: upper-case the first letter and every letter
following a hyphen, lower-case the rest. -/
def canonChars : Bool → List Char → List Char
  | _, [] => []
  | upper, c :: rest =>
    (if upper then c.toUpper else c.toLower) :: canonChars (c = '-') rest

/-- `textproto.CanonicalMIMEHeaderKey`: keys containing an invalid byte are
returned unchanged, otherwise canonicalized. -/
def canonicalMIMEHeaderKey (s : String) : String :=
  if s.toList.all validHeaderFieldChar then String.mk (canonChars true s.toList)
  else s

/-- `http.Header.Set` on the request being built. -/
def reqHeaderSet (h : List (String × String)) (k v : String) :
    List (String × String) :=
  strMapInsert h (canonicalMIMEHeaderKey k) v

/-- `http.NewRequest`'s `validMethod`: non-empty and token characters only
(the same token table as header field bytes). -/
def validMethodB (m : String) : Bool :=
  m ≠ "" ∧ m.toList.all validHeaderFieldChar

/-- The outbound request assembled by `MakeRequest`: `body = none` models the
nil body of the bodyless-verb branch; the URL query-string merge through
`net/url` is abstracted by recording the added `QueryData` verbatim. -/
structure HttpReq where
  method : String
  url : String
  body : Option String
  headers : List (String × String)
  queryAdds : UrlValues
  basicAuth : Option (String × String)
  cookies : List (String × String)

/-- `http.NewRequest(method, url, body)`: an empty method defaults to GET,
an invalid method token or a URL that `net/url.Parse` rejects is an error
return; otherwise a fresh request with no headers. -/
def httpNewRequest (method urlStr : String) (body : Option String) :
    Except GoError HttpReq :=
  if ¬ validMethodB (if method = "" then GET else method) then
    Except.error (GoError.invalidMethod (if method = "" then GET else method))
  else if ¬ urlParseOk urlStr then
    Except.error (GoError.urlParse urlStr)
  else
    Except.ok
      { method := if method = "" then GET else method, url := urlStr,
        body := body, headers := [], queryAdds := [], basicAuth := none,
        cookies := [] }

/-- The tail of `MakeRequest` after the method switch: apply the
`SuperAgent` headers (in the builder's insertion order; Go iterates its
header map in unspecified order, which no claim depends on), record the
query additions, basic auth, and cookies. -/
def finishRequest (req : HttpReq) (s : SuperAgent) : HttpReq :=
  { req with
    headers := s.Header.foldl (fun h kv => reqHeaderSet h kv.1 kv.2)
      req.headers
    queryAdds := s.QueryData
    basicAuth := if s.BasicAuth ≠ ("", "") then some s.BasicAuth else none
    cookies := s.Cookies }

/-- Outcome of `MakeRequest`: a request, an error return, or the nil-pointer
dereference that the Go code commits when a body verb meets an unrecognized
`TargetType` (no branch assigns `req`, and the header loop dereferences the
nil request — a crash, not a return). -/
inductive MakeReqResult where
  | ok : HttpReq → MakeReqResult
  | err : GoError → MakeReqResult
  | nilPanic : MakeReqResult

namespace SuperAgent

/-- `MakeRequest`.  The json, form and default branches propagate
`http.NewRequest`'s error return; the text and xml branches do *not* check
it (the Go code calls `req.Header.Set` immediately), so a failing
`NewRequest` there leaves `req` nil and the dereference crashes —
`nilPanic`, like the unrecognized-target-type fall-through. -/
def MakeRequest (s : SuperAgent) : MakeReqResult :=
  if s.Method = POST ∨ s.Method = PUT ∨ s.Method = PATCH then
    if s.TargetType = "json" then
      match httpNewRequest s.Method s.Url
        (some (if s.BounceToRawString then s.RawString
          else if ¬ s.Data.isEmpty then jsonMarshal (GoVal.obj s.Data)
          else if ¬ s.SliceData.isEmpty then jsonMarshal (GoVal.arr s.SliceData)
          else "")) with
      | Except.error e => MakeReqResult.err e
      | Except.ok req =>
        MakeReqResult.ok (finishRequest
          { req with headers :=
              reqHeaderSet req.headers "Content-Type" "application/json" } s)
    else if s.TargetType = "form" then
      match httpNewRequest s.Method s.Url
        (some (if s.BounceToRawString ∨ ¬ s.SliceData.isEmpty then s.RawString
          else uvEncode (changeMapToURLValues s.Data))) with
      | Except.error e => MakeReqResult.err e
      | Except.ok req =>
        MakeReqResult.ok (finishRequest
          { req with
              headers :=
                reqHeaderSet req.headers "Content-Type"
                  "application/x-www-form-urlencoded" } s)
    else if s.TargetType = "text" then
      match httpNewRequest s.Method s.Url (some s.RawString) with
      | Except.error _ => MakeReqResult.nilPanic
      | Except.ok req =>
        MakeReqResult.ok (finishRequest
          { req with headers :=
              reqHeaderSet req.headers "Content-Type" "text/plain" } s)
    else if s.TargetType = "xml" then
      match httpNewRequest s.Method s.Url (some s.RawString) with
      | Except.error _ => MakeReqResult.nilPanic
      | Except.ok req =>
        MakeReqResult.ok (finishRequest
          { req with headers :=
              reqHeaderSet req.headers "Content-Type" "application/xml" } s)
    else MakeReqResult.nilPanic
  else if s.Method = "" then MakeReqResult.err GoError.noMethod
  else
    match httpNewRequest s.Method s.Url none with
    | Except.error e => MakeReqResult.err e
    | Except.ok req => MakeReqResult.ok (finishRequest req s)

end SuperAgent

/-- The content-type resolution at the top of `EndBytes`: a `ForceType` of
`json`, `form`, `xml` or `text` wins (note: *not* the other recognized
aliases `html`, `urlencoded`, `form-data`, which fall through to the header
scan); otherwise every entry of the `Types` map whose value equals the
`Content-Type` header overwrites `TargetType`, in the iteration order given
by `order` (Go iterates the map in unspecified order). -/
def resolveTargetType (order : List (String × String)) (s : SuperAgent) :
    SuperAgent :=
  if s.ForceType = "json" ∨ s.ForceType = "form" ∨ s.ForceType = "xml" ∨
      s.ForceType = "text" then
    { s with TargetType := s.ForceType }
  else
    order.foldl
      (fun acc kv =>
        if strMapGet acc.Header "Content-Type" = kv.2 then
          { acc with TargetType := kv.1 }
        else acc)
      s

/-- The pure state transformation `EndBytes` applies before `MakeRequest`:
resolve the target type, then bounce to raw-string mode when both `Data` and
`SliceData` are populated. -/
def endBytesPrepared (order : List (String × String)) (s : SuperAgent) :
    SuperAgent :=
  if ¬ (resolveTargetType order s).Data.isEmpty ∧
      ¬ (resolveTargetType order s).SliceData.isEmpty then
    { resolveTargetType order s with BounceToRawString := true }
  else resolveTargetType order s

/-- The observable outcome of `EndBytes` up to the network call:
`abort errs` models `return nil, nil, errs` — a nil response, empty body and
exactly `errs`, with `Client.Do` never invoked; `send req` models reaching
`Client.Do(req)` with the materialized request; `panic` models the nil
request dereference. -/
inductive Dispatch where
  | abort : List GoError → Dispatch
  | send : HttpReq → Dispatch
  | panic : Dispatch

/-- `EndBytes` up to the network call, with the `Types`-map iteration order
of the header scan as an explicit parameter. -/
def EndBytes (order : List (String × String)) (s : SuperAgent) : Dispatch :=
  if ¬ s.Errors.isEmpty then Dispatch.abort s.Errors
  else
    match (endBytesPrepared order s).MakeRequest with
    | MakeReqResult.err e =>
      Dispatch.abort ((endBytesPrepared order s).Errors ++ [e])
    | MakeReqResult.nilPanic => Dispatch.panic
    | MakeReqResult.ok req => Dispatch.send req

/-- `End` delegates to `EndBytes` (converting body bytes to a string, which
is the identity in this model). -/
def End (order : List (String × String)) (s : SuperAgent) : Dispatch :=
  EndBytes order s

/-- The value the form branch of `SendString` leaves under an existing or
fresh key, following the specification's wording: the newly sent value
first, then the prior string or string-list; a prior value of any other
type is dropped. -/
def formMergeSpecValue (old : Option GoVal) (newVal : String) : GoVal :=
  match old with
  | none => GoVal.str newVal
  | some (GoVal.str o) => GoVal.strList [newVal, o]
  | some (GoVal.strList l) => GoVal.strList (newVal :: l)
  | some _ => GoVal.strList [newVal]

/-- The state guaranteed after a verb call (`Get`/`Post`/…/`CustomMethod`):
the per-request fields are cleared to their defaults, method and url are set
— and `BasicAuth` is carried over unchanged from the prior state. -/
def VerbResetState (t s : SuperAgent) (m u : String) : Prop :=
  t.Header = [] ∧ t.Data = [] ∧ t.SliceData = [] ∧ t.FormData = [] ∧
  t.QueryData = [] ∧ t.BounceToRawString = false ∧ t.RawString = "" ∧
  t.ForceType = "" ∧ t.TargetType = "json" ∧ t.Cookies = [] ∧ t.Errors = [] ∧
  t.Method = m ∧ t.Url = u ∧ t.BasicAuth = s.BasicAuth

/-- Is this `GoVal` a Go `string` (survives the `v.(string)` assertion)? -/
def isStrVal : GoVal → Bool
  | GoVal.str _ => true
  | _ => false

/-! ## Helper lemmas -/

theorem SendStringCore_Method (s : SuperAgent) (c : String) :
    (s.SendStringCore c).Method = s.Method := by
  unfold SuperAgent.SendStringCore
  split
  · rfl
  · cases goJsonDecode c with
    | some v => cases v <;> rfl
    | none => cases goParseQuery c <;> rfl

theorem SendStringCore_RawString (s : SuperAgent) (c : String) :
    (s.SendStringCore c).RawString = s.RawString := by
  unfold SuperAgent.SendStringCore
  split
  · rfl
  · cases goJsonDecode c with
    | some v => cases v <;> rfl
    | none => cases goParseQuery c <;> rfl

theorem SendString_RawString (s : SuperAgent) (c : String) :
    (s.SendString c).RawString = s.RawString ++ c := by
  show (s.SendStringCore c).RawString ++ c = s.RawString ++ c
  rw [SendStringCore_RawString]

theorem SendString_Method (s : SuperAgent) (c : String) :
    (s.SendString c).Method = s.Method := by
  show (s.SendStringCore c).Method = s.Method
  exact SendStringCore_Method s c

theorem Send_Method (s : SuperAgent) (c : SendContent) :
    (s.Send c).Method = s.Method := by
  cases c with
  | str t => exact SendString_Method s t
  | struct img => cases img <;> rfl
  | slice l => rfl
  | other => rfl

theorem sendAll_Method (ops : List SendContent) (s : SuperAgent) :
    (ops.foldl (fun a c => a.Send c) s).Method = s.Method := by
  induction ops generalizing s with
  | nil => rfl
  | cons c rest ih =>
    rw [List.foldl_cons, ih, Send_Method]

theorem SendStringCore_Url (s : SuperAgent) (c : String) :
    (s.SendStringCore c).Url = s.Url := by
  unfold SuperAgent.SendStringCore
  split
  · rfl
  · cases goJsonDecode c with
    | some v => cases v <;> rfl
    | none => cases goParseQuery c <;> rfl

theorem SendString_Url (s : SuperAgent) (c : String) :
    (s.SendString c).Url = s.Url := by
  show (s.SendStringCore c).Url = s.Url
  exact SendStringCore_Url s c

theorem Send_Url (s : SuperAgent) (c : SendContent) :
    (s.Send c).Url = s.Url := by
  cases c with
  | str t => exact SendString_Url s t
  | struct img => cases img <;> rfl
  | slice l => rfl
  | other => rfl

theorem sendAll_Url (ops : List SendContent) (s : SuperAgent) :
    (ops.foldl (fun a c => a.Send c) s).Url = s.Url := by
  induction ops generalizing s with
  | nil => rfl
  | cons c rest ih =>
    rw [List.foldl_cons, ih, Send_Url]

theorem makeRequest_json_bounce (s2 : SuperAgent) (hm : s2.Method = POST)
    (ht : s2.TargetType = "json") (hb : s2.BounceToRawString = true)
    (hu : urlParseOk s2.Url = true) :
    s2.MakeRequest = MakeReqResult.ok (finishRequest
      { method := s2.Method, url := s2.Url, body := some s2.RawString,
        headers := reqHeaderSet [] "Content-Type" "application/json",
        queryAdds := [], basicAuth := none, cookies := [] } s2) := by
  unfold SuperAgent.MakeRequest
  rw [if_pos (Or.inl hm), if_pos ht, hb, if_pos rfl]
  unfold httpNewRequest
  rw [hm, if_neg (by decide), if_neg (by simp [hu])]
  rfl

theorem sendAll_RawString (ops : List SendContent) (s : SuperAgent) :
    (ops.foldl (fun a c => a.Send c) s).RawString =
      s.RawString ++ concatStrings (sendStringInputs ops) := by
  induction ops generalizing s with
  | nil => simp [sendStringInputs, concatStrings]
  | cons c rest ih =>
    rw [List.foldl_cons, ih]
    cases c with
    | str t =>
      show (s.SendString t).RawString ++ concatStrings (sendStringInputs rest)
        = s.RawString ++ (t ++ concatStrings (sendStringInputs rest))
      rw [SendString_RawString, String.append_assoc]
    | struct img => cases img <;> rfl
    | slice l => rfl
    | other => rfl

theorem resolveLoopStep :
    ∀ (l : List (String × String)) (s : SuperAgent),
      ∃ t, l.foldl
        (fun acc kv =>
          if strMapGet acc.Header "Content-Type" = kv.2 then
            { acc with TargetType := kv.1 }
          else acc) s = { s with TargetType := t } := by
  intro l
  induction l with
  | nil => exact fun s => ⟨s.TargetType, rfl⟩
  | cons kv rest ih =>
    intro s
    rw [List.foldl_cons]
    by_cases hc : strMapGet s.Header "Content-Type" = kv.2
    · rw [if_pos hc]
      obtain ⟨t, ht⟩ := ih { s with TargetType := kv.1 }
      exact ⟨t, ht⟩
    · rw [if_neg hc]
      exact ih s

theorem resolveTargetType_eq (order : List (String × String))
    (s : SuperAgent) :
    ∃ t, resolveTargetType order s = { s with TargetType := t } := by
  unfold resolveTargetType
  split
  · exact ⟨s.ForceType, rfl⟩
  · exact resolveLoopStep order s

theorem endBytesPrepared_eq (order : List (String × String)) (s : SuperAgent) :
    ∃ t b, endBytesPrepared order s =
      { s with TargetType := t, BounceToRawString := b } := by
  obtain ⟨t, ht⟩ := resolveTargetType_eq order s
  unfold endBytesPrepared
  rw [ht]
  split
  · exact ⟨t, true, rfl⟩
  · exact ⟨t, s.BounceToRawString, rfl⟩

theorem mapLookup_insert_self (m : DataMap) (k : String) (v : GoVal) :
    mapLookup (mapInsert m k v) k = some v := by
  induction m with
  | nil => simp [mapInsert, mapLookup]
  | cons kv0 rest ih =>
    obtain ⟨k0, v0⟩ := kv0
    by_cases h : k0 = k <;> simp [mapInsert, mapLookup, h, ih]

theorem mapLookup_insert_ne (m : DataMap) (k : String) (v : GoVal)
    (q : String) (h : q ≠ k) :
    mapLookup (mapInsert m k v) q = mapLookup m q := by
  have hkq : k ≠ q := Ne.symm h
  induction m with
  | nil => simp [mapInsert, mapLookup, hkq]
  | cons kv0 rest ih =>
    obtain ⟨k0, v0⟩ := kv0
    by_cases h0 : k0 = k
    · subst h0
      simp [mapInsert, mapLookup, hkq]
    · simp [mapInsert, mapLookup, h0, ih]

theorem formMergeOne_lookup_self (fv : UrlValues) (m : DataMap) (k : String) :
    mapLookup (formMergeOne fv m k) k =
      some (formMergeSpecValue (mapLookup m k) (uvGet fv k)) := by
  unfold formMergeOne formMergeSpecValue
  cases h : mapLookup m k with
  | none => simp [mapLookup_insert_self]
  | some old => cases old <;> simp [mapLookup_insert_self]

theorem formMergeOne_lookup_ne (fv : UrlValues) (m : DataMap) (k q : String)
    (h : q ≠ k) :
    mapLookup (formMergeOne fv m k) q = mapLookup m q := by
  unfold formMergeOne
  cases mapLookup m k with
  | none => exact mapLookup_insert_ne m k _ q h
  | some old => exact mapLookup_insert_ne m k _ q h

theorem formFold_lookup_not_mem (fv : UrlValues) (l : UrlValues) (m : DataMap)
    (k : String) (h : k ∉ l.map Prod.fst) :
    mapLookup (l.foldl (fun acc kv => formMergeOne fv acc kv.1) m) k =
      mapLookup m k := by
  induction l generalizing m with
  | nil => rfl
  | cons kv rest ih =>
    rw [List.foldl_cons]
    simp only [List.map_cons, List.mem_cons, not_or] at h
    rw [ih _ h.2, formMergeOne_lookup_ne _ _ _ _ h.1]

theorem formFold_lookup_mem (fv : UrlValues) (l : UrlValues) (m : DataMap)
    (k : String) (hnd : (l.map Prod.fst).Nodup) (hmem : k ∈ l.map Prod.fst) :
    mapLookup (l.foldl (fun acc kv => formMergeOne fv acc kv.1) m) k =
      some (formMergeSpecValue (mapLookup m k) (uvGet fv k)) := by
  induction l generalizing m with
  | nil => simp at hmem
  | cons kv rest ih =>
    rw [List.foldl_cons]
    simp only [List.map_cons, List.nodup_cons] at hnd
    simp only [List.map_cons, List.mem_cons] at hmem
    by_cases hk : k = kv.1
    · subst hk
      rw [formFold_lookup_not_mem fv rest _ kv.1 hnd.1,
        formMergeOne_lookup_self]
    · rw [ih (formMergeOne fv m kv.1) hnd.2 (hmem.resolve_left hk),
        formMergeOne_lookup_ne _ _ _ _ hk]

theorem uvKeys_uvAdd_mem (q : UrlValues) (k v x : String)
    (h : x ∈ uvKeys (uvAdd q k v)) : x ∈ uvKeys q ∨ x = k := by
  induction q with
  | nil =>
    simp [uvAdd, uvKeys] at h
    exact Or.inr h
  | cons kv rest ih =>
    obtain ⟨k0, vs⟩ := kv
    by_cases h0 : k0 = k
    · simp only [uvAdd, if_pos h0, uvKeys, List.map_cons, List.mem_cons] at h
      simp only [uvKeys, List.map_cons, List.mem_cons]
      exact Or.inl h
    · simp only [uvAdd, if_neg h0, uvKeys, List.map_cons, List.mem_cons] at h
      simp only [uvKeys, List.map_cons, List.mem_cons]
      rcases h with h | h
      · exact Or.inl (Or.inl h)
      · rcases ih h with h2 | h2
        · exact Or.inl (Or.inr h2)
        · exact Or.inr h2

theorem uvAdd_keys_nodup (q : UrlValues) (k v : String)
    (h : (uvKeys q).Nodup) : (uvKeys (uvAdd q k v)).Nodup := by
  induction q with
  | nil => simp [uvAdd, uvKeys]
  | cons kv rest ih =>
    obtain ⟨k0, vs⟩ := kv
    simp only [uvKeys, List.map_cons, List.nodup_cons] at h
    by_cases h0 : k0 = k
    · simp only [uvAdd, if_pos h0, uvKeys, List.map_cons, List.nodup_cons]
      exact ⟨h.1, h.2⟩
    · simp only [uvAdd, if_neg h0, uvKeys, List.map_cons, List.nodup_cons]
      refine ⟨?_, ih h.2⟩
      intro hmem
      rcases uvKeys_uvAdd_mem rest k v k0 hmem with h2 | h2
      · exact h.1 h2
      · exact h0 h2

theorem parseQuerySegs_nodup :
    ∀ (segs : List (List Char)) (acc fv : UrlValues),
      (uvKeys acc).Nodup → parseQuerySegs segs acc = some fv →
        (uvKeys fv).Nodup := by
  intro segs
  induction segs with
  | nil =>
    intro acc fv h hp
    cases hp
    exact h
  | cons seg rest ih =>
    intro acc fv h hp
    unfold parseQuerySegs at hp
    split at hp
    · exact ih acc fv h hp
    · cases h1 : queryUnescape (splitEq seg).1 with
      | none => rw [h1] at hp; cases hp
      | some kk =>
        cases h2 : queryUnescape (splitEq seg).2 with
        | none => rw [h1, h2] at hp; cases hp
        | some vv =>
          rw [h1, h2] at hp
          exact ih _ fv (uvAdd_keys_nodup _ _ _ h) hp

theorem goParseQuery_nodup (c : String) (fv : UrlValues)
    (h : goParseQuery c = some fv) : (uvKeys fv).Nodup :=
  parseQuerySegs_nodup _ [] fv (by simp [uvKeys]) h

theorem verbResetState_clear (s : SuperAgent) (m u : String) :
    VerbResetState
      { s.ClearSuperAgent with Method := m, Url := u, Errors := [] } s m u :=
  ⟨rfl, rfl, rfl, rfl, rfl, rfl, rfl, rfl, rfl, rfl, rfl, rfl, rfl, rfl⟩

theorem queryStructAdd_strs (kvs : List (String × String)) :
    ∀ q : UrlValues,
      SuperAgent.queryStruct.queryStructAdd
        (kvs.map (fun kv => (kv.1, GoVal.str kv.2))) q =
      some (kvs.foldl (fun q2 kv => uvAdd q2 (goToLower kv.1) kv.2) q) := by
  induction kvs with
  | nil => intro q; rfl
  | cons kv rest ih =>
    intro q
    rw [List.map_cons, List.foldl_cons]
    exact ih (uvAdd q (goToLower kv.1) kv.2)

theorem queryStructAdd_bad (bad : DataMap) :
    ∀ q : UrlValues, (∃ kv ∈ bad, isStrVal kv.2 = false) →
      SuperAgent.queryStruct.queryStructAdd bad q = none := by
  induction bad with
  | nil =>
    intro q h
    simp at h
  | cons kv rest ih =>
    intro q h
    obtain ⟨k, val⟩ := kv
    cases val with
    | str v =>
      refine ih _ ?_
      rcases h with ⟨kv2, hm2, hbad2⟩
      rcases List.mem_cons.mp hm2 with heq | hm3
      · rw [heq] at hbad2
        simp [isStrVal] at hbad2
      · exact ⟨kv2, hm3, hbad2⟩
    | num n => rfl
    | bool b => rfl
    | null => rfl
    | arr l => rfl
    | obj kvs2 => rfl
    | strList l => rfl

theorem resolveLoop_no_match (l : List (String × String)) (s : SuperAgent)
    (h : ∀ kv ∈ l, strMapGet s.Header "Content-Type" ≠ kv.2) :
    l.foldl
      (fun acc kv =>
        if strMapGet acc.Header "Content-Type" = kv.2 then
          { acc with TargetType := kv.1 }
        else acc) s = s := by
  induction l with
  | nil => rfl
  | cons kv rest ih =>
    rw [List.foldl_cons, if_neg (h kv (List.mem_cons_self _ _))]
    exact ih (fun kv2 hm2 => h kv2 (List.mem_cons_of_mem _ hm2))

theorem resolveLoop_match (l : List (String × String)) (hv : String) :
    ∀ s : SuperAgent, strMapGet s.Header "Content-Type" = hv →
      (∃ kv ∈ l, hv = kv.2) →
      ∃ kv ∈ l, hv = kv.2 ∧
        (l.foldl
          (fun acc kv =>
            if strMapGet acc.Header "Content-Type" = kv.2 then
              { acc with TargetType := kv.1 }
            else acc) s).TargetType = kv.1 := by
  induction l with
  | nil =>
    intro s hs hex
    simp at hex
  | cons kv rest ih =>
    intro s hs hex
    rw [List.foldl_cons]
    by_cases hc : hv = kv.2
    · rw [if_pos (by rw [hs]; exact hc)]
      by_cases hex2 : ∃ kv2 ∈ rest, hv = kv2.2
      · obtain ⟨kv2, hm2, he2, ht2⟩ :=
          ih { s with TargetType := kv.1 } hs hex2
        exact ⟨kv2, List.mem_cons_of_mem _ hm2, he2, ht2⟩
      · push_neg at hex2
        have hnm : ∀ kv2 ∈ rest,
            strMapGet ({ s with TargetType := kv.1 } :
              SuperAgent).Header "Content-Type" ≠ kv2.2 := by
          intro kv2 hm2
          show strMapGet s.Header "Content-Type" ≠ kv2.2
          rw [hs]
          exact hex2 kv2 hm2
        rw [resolveLoop_no_match rest _ hnm]
        exact ⟨kv, List.mem_cons_self _ _, hc, rfl⟩
    · rw [if_neg (by rw [hs]; exact hc)]
      have hex2 : ∃ kv2 ∈ rest, hv = kv2.2 := by
        rcases hex with ⟨kv2, hm2, he2⟩
        rcases List.mem_cons.mp hm2 with heq | hm3
        · rw [heq] at he2
          exact absurd he2 hc
        · exact ⟨kv2, hm3, he2⟩
      obtain ⟨kv2, hm2, he2, ht2⟩ := ih s hs hex2
      exact ⟨kv2, List.mem_cons_of_mem _ hm2, he2, ht2⟩

/-! ## Claims -/

/-- C2: for every builder whose accumulated error list is non-empty when
dispatch is invoked, dispatch performs no network I/O and returns a nil
response, an empty body and exactly the accumulated error list, unchanged
and in accumulation order (`Dispatch.abort s.Errors` models the early
`return nil, nil, s.Errors`). -/
theorem claim_C2 (order : List (String × String)) (s : SuperAgent)
    (h : s.Errors ≠ []) : EndBytes order s = Dispatch.abort s.Errors := by
  match hE : s.Errors, h with
  | e :: es, _ =>
    unfold EndBytes
    rw [if_pos (by rw [hE]; simp), hE]

theorem claim_C2_witness :
    EndBytes typesList ((New.Post "http://u").SetType "bogus") =
      Dispatch.abort [GoError.typeIncorrect "bogus"] :=
  claim_C2 typesList _ (by decide)

/-- C8: for every sequence of `Send` calls with string arguments on one
builder, the raw body afterwards equals the concatenation of all those
string arguments in call order, regardless of which parse branch each call
took. -/
theorem claim_C8 (s : SuperAgent) (inputs : List String) :
    ((inputs.map SendContent.str).foldl (fun a c => a.Send c) s).RawString =
      s.RawString ++ concatStrings inputs := by
  rw [sendAll_RawString]
  congr 1
  induction inputs with
  | nil => rfl
  | cons c rest ih =>
    simp only [List.map_cons, sendStringInputs, concatStrings, ih]

/-- C9 counterexample: the claim says a verb call resets *all* per-request
state so a subsequent dispatch reflects only configuration applied after the
verb call; but basic-auth credentials configured *before* a `Get` survive it
and are applied to the materialized request. -/
theorem claim_C9_counterexample :
    ((New.SetBasicAuth "alice" "pw").Get "http://u").MakeRequest =
      MakeReqResult.ok
        { method := "GET", url := "http://u", body := none, headers := [],
          queryAdds := [], basicAuth := some ("alice", "pw"),
          cookies := [] } := rfl

/-- C9 (amended): every verb call (Get/Post/Put/Patch/Delete/Head/Options/
CustomMethod) resets headers, structured body, list body, raw body,
query/form data, the raw-string-mode flag, forced/target content type,
cookies and errors to empty/default and sets the new method and url — but
basic-auth credentials persist across the verb call (as do the client and
transport settings), so a subsequent dispatch also reflects basic auth
configured before the verb call. -/
theorem claim_C9_amended (s : SuperAgent) (m u : String) :
    VerbResetState (s.Get u) s GET u ∧
    VerbResetState (s.Post u) s POST u ∧
    VerbResetState (s.Head u) s HEAD u ∧
    VerbResetState (s.Put u) s PUT u ∧
    VerbResetState (s.Delete u) s DELETE u ∧
    VerbResetState (s.Patch u) s PATCH u ∧
    VerbResetState (s.Options u) s OPTIONS u ∧
    VerbResetState (s.CustomMethod m u) s m u := by
  refine ⟨verbResetState_clear s GET u, verbResetState_clear s POST u,
    verbResetState_clear s HEAD u, verbResetState_clear s PUT u,
    verbResetState_clear s DELETE u, verbResetState_clear s PATCH u,
    verbResetState_clear s OPTIONS u, ?_⟩
  unfold SuperAgent.CustomMethod
  split_ifs with h1 h2 h3 h4 h5 h6 h7
  · subst h1; exact verbResetState_clear s POST u
  · subst h2; exact verbResetState_clear s GET u
  · subst h3; exact verbResetState_clear s HEAD u
  · subst h4; exact verbResetState_clear s PUT u
  · subst h5; exact verbResetState_clear s DELETE u
  · subst h6; exact verbResetState_clear s PATCH u
  · subst h7; exact verbResetState_clear s OPTIONS u
  · exact verbResetState_clear s m u

/-- C10: for every dispatch whose method is not POST, PUT or PATCH (GET,
HEAD, DELETE, OPTIONS or any custom string), whenever a request is
materialized it carries no body (`none`) and its headers are exactly the
builder's own headers — no Content-Type derived from the resolved content
type — even when body content was populated via Send (when
`http.NewRequest` rejects the method token or the URL, no request is
materialized and its error is returned instead); and dispatch with an
empty method returns the "no method specified" error without performing
I/O. -/
theorem claim_C10 (order : List (String × String)) (s : SuperAgent) :
    (∀ req, s.Method ≠ POST → s.Method ≠ PUT → s.Method ≠ PATCH →
      s.MakeRequest = MakeReqResult.ok req →
      req.body = none ∧
      req.headers =
        s.Header.foldl (fun h kv => reqHeaderSet h kv.1 kv.2) []) ∧
    (s.Method = "" → s.Errors = [] →
      EndBytes order s = Dispatch.abort [GoError.noMethod]) := by
  constructor
  · intro req h1 h2 h3 hok
    unfold SuperAgent.MakeRequest at hok
    rw [if_neg (by simp [h1, h2, h3])] at hok
    by_cases hm : s.Method = ""
    · rw [if_pos hm] at hok
      exact MakeReqResult.noConfusion hok
    · rw [if_neg hm] at hok
      cases hnr : httpNewRequest s.Method s.Url none with
      | error e =>
        rw [hnr] at hok
        exact MakeReqResult.noConfusion
          (show MakeReqResult.err e = MakeReqResult.ok req from hok)
      | ok base =>
        rw [hnr] at hok
        have hok2 : MakeReqResult.ok (finishRequest base s) =
            MakeReqResult.ok req := hok
        injection hok2 with hreq
        subst hreq
        unfold httpNewRequest at hnr
        rw [if_neg hm] at hnr
        split at hnr
        · exact Except.noConfusion hnr
        · split at hnr
          · exact Except.noConfusion hnr
          · injection hnr with hbase
            subst hbase
            exact ⟨rfl, rfl⟩
  · intro hm he
    unfold EndBytes
    rw [if_neg (by simp [he])]
    obtain ⟨t, b, hp⟩ := endBytesPrepared_eq order s
    rw [hp]
    have hmk : ({ s with TargetType := t, BounceToRawString := b } :
        SuperAgent).MakeRequest = MakeReqResult.err GoError.noMethod := by
      unfold SuperAgent.MakeRequest
      rw [if_neg (by show ¬(s.Method = POST ∨ s.Method = PUT ∨
          s.Method = PATCH); rw [hm]; simp [POST, PUT, PATCH]),
        if_pos (show s.Method = "" from hm)]
    rw [hmk]
    show Dispatch.abort (s.Errors ++ [GoError.noMethod]) = _
    rw [he]
    rfl

theorem claim_C10_witness :
    ((New.Get "http://u").Send (SendContent.str "[1]")).MakeRequest =
      MakeReqResult.ok
        { method := "GET", url := "http://u", body := none, headers := [],
          queryAdds := [], basicAuth := none, cookies := [] } ∧
    ({ method := "GET", url := "http://u", body := none, headers := [],
        queryAdds := [], basicAuth := none,
        cookies := [] } : HttpReq).body = none ∧
    ({ method := "GET", url := "http://u", body := none, headers := [],
        queryAdds := [], basicAuth := none,
        cookies := [] } : HttpReq).headers = [] ∧
    EndBytes typesList New = Dispatch.abort [GoError.noMethod] := by
  refine ⟨rfl, ?_, ?_, (claim_C10 typesList New).2 rfl rfl⟩
  · exact ((claim_C10 typesList
      ((New.Get "http://u").Send (SendContent.str "[1]"))).1 _ (by decide)
      (by decide) (by decide) rfl).1
  · exact ((claim_C10 typesList
      ((New.Get "http://u").Send (SendContent.str "[1]"))).1 _ (by decide)
      (by decide) (by decide) rfl).2

/-- C3 counterexample: the claim offers "hello world" as an example of a
string that is neither valid JSON nor valid form data and so must engage
raw-string mode.  But `url.ParseQuery("hello world")` succeeds (a space is
not an escape error), so the code takes the form branch: the flag stays
false, the target type becomes form, and the whole string becomes a key in
the structured body. -/
theorem claim_C3_counterexample :
    ((New.Post "http://u").SendString "hello world").BounceToRawString
      = false ∧
    ((New.Post "http://u").SendString "hello world").TargetType = "form" ∧
    mapLookup ((New.Post "http://u").SendString "hello world").Data
      "hello world" = some (GoVal.str "") :=
  ⟨rfl, rfl, rfl⟩

/-- C3 (amended): a `Send` of a string that fails both the JSON decode and
the form parse (for example "a%", whose incomplete percent escape fails
`url.ParseQuery` — not "hello world", which form-parses) sets the
raw-string-mode flag; and once the flag is true, every subsequent string
`Send` (including valid JSON) only appends its argument verbatim to the raw
body, leaving everything else (flag included) unchanged, while struct and
slice sends also leave the flag untouched — so the flag never returns to
false before the next verb-call reset. -/
theorem claim_C3_amended :
    (∀ (s : SuperAgent) (c : String), goJsonDecode c = none →
      goParseQuery c = none → (s.SendString c).BounceToRawString = true) ∧
    (∀ (s : SuperAgent) (c : String), s.BounceToRawString = true →
      s.SendString c = { s with RawString := s.RawString ++ c }) ∧
    (∀ (s : SuperAgent) (img : Except GoError DataMap),
      (s.SendStruct img).BounceToRawString = s.BounceToRawString) ∧
    (∀ (s : SuperAgent) (l : List GoVal),
      (s.SendSlice l).BounceToRawString = s.BounceToRawString) := by
  refine ⟨?_, ?_, ?_, ?_⟩
  · intro s c hj hf
    show (s.SendStringCore c).BounceToRawString = true
    unfold SuperAgent.SendStringCore
    split
    · next hb => exact hb
    · rw [hj, hf]
  · intro s c hb
    unfold SuperAgent.SendString SuperAgent.SendStringCore
    rw [if_pos hb]
  · intro s img
    cases img <;> rfl
  · intro s l
    rfl

theorem claim_C3_witness :
    ((New.Post "http://u").SendString "a%").BounceToRawString = true ∧
    ((New.Post "http://u").SendString "a%").SendString "b=2" =
      { (New.Post "http://u").SendString "a%" with
        RawString :=
          ((New.Post "http://u").SendString "a%").RawString ++ "b=2" } :=
  ⟨claim_C3_amended.1 _ "a%" rfl rfl,
    claim_C3_amended.2.1 _ "b=2" (claim_C3_amended.1 _ "a%" rfl rfl)⟩

/-- C4 counterexample: the claim says a string that parses as a bare JSON
scalar is then attempted as a form body, and raw mode is engaged only when
that form parse also fails.  For "123" the form parse would succeed
(`ParseQuery("123")` yields the key "123"), yet the code engages raw mode
immediately in the scalar branch, merges nothing, and leaves the target
type json — the form attempt never happens for scalars. -/
theorem claim_C4_counterexample :
    ((New.Post "http://u").SendString "123").BounceToRawString = true ∧
    ((New.Post "http://u").SendString "123").Data = [] ∧
    ((New.Post "http://u").SendString "123").TargetType = "json" ∧
    goParseQuery "123" = some [("123", [""])] :=
  ⟨rfl, rfl, rfl, rfl⟩

/-- C4 (amended): a string whose JSON decode *fails* is attempted as a
URL-encoded form body — on success the parsed keys are merged into the
structured body and the target type becomes form, and raw-string mode is
engaged only if this form parse also fails; but a string that decodes as a
bare JSON scalar (not an object or array) engages raw-string mode
immediately, with no form-parse attempt and no merge. -/
theorem claim_C4_amended :
    (∀ (s : SuperAgent) (c : String) (fv : UrlValues),
      s.BounceToRawString = false → goJsonDecode c = none →
      goParseQuery c = some fv →
      s.SendString c =
        { s with
            Data := formMergeAll fv s.Data,
            TargetType := "form",
            RawString := s.RawString ++ c }) ∧
    (∀ (s : SuperAgent) (c : String) (v : GoVal),
      s.BounceToRawString = false → goJsonDecode c = some v →
      (∀ kvs, v ≠ GoVal.obj kvs) → (∀ l, v ≠ GoVal.arr l) →
      s.SendString c =
        { s with
            BounceToRawString := true,
            RawString := s.RawString ++ c }) := by
  constructor
  · intro s c fv hb hj hf
    unfold SuperAgent.SendString SuperAgent.SendStringCore
    rw [if_neg (by simp [hb]), hj, hf]
  · intro s c v hb hj hobj harr
    unfold SuperAgent.SendString SuperAgent.SendStringCore
    rw [if_neg (by simp [hb]), hj]
    cases v with
    | obj kvs => exact absurd rfl (hobj kvs)
    | arr l => exact absurd rfl (harr l)
    | str t => rfl
    | num n => rfl
    | bool b => rfl
    | null => rfl
    | strList l => rfl

theorem claim_C4_witness :
    (New.Post "http://u").SendString "b=2" =
      { New.Post "http://u" with
          Data := [("b", GoVal.str "2")],
          TargetType := "form",
          RawString := "b=2" } ∧
    (New.Post "http://u").SendString "true" =
      { New.Post "http://u" with
          BounceToRawString := true,
          RawString := "true" } :=
  ⟨claim_C4_amended.1 (New.Post "http://u") "b=2" [("b", ["2"])] rfl rfl rfl,
    claim_C4_amended.2 (New.Post "http://u") "true" (GoVal.bool true) rfl rfl
      (fun _ h => GoVal.noConfusion h) (fun _ h => GoVal.noConfusion h)⟩

/-- C5 counterexample: the claim says that for a form-parsed Send, a key
that already exists in the structured body ends up as a list with the new
value first *followed by the prior value(s)*.  But when the prior value is
a `json.Number` (here from a struct send of `a: 1`), the type switch
matches neither `string` nor `[]string` and the prior value is silently
dropped: the stored list is just `["2"]`, not `["2", "1"]`. -/
theorem claim_C5_counterexample :
    mapLookup (((New.Post "http://u").SendStruct
        (Except.ok [("a", GoVal.num "1")])).SendString "a=2").Data "a" =
      some (GoVal.strList ["2"]) ∧
    GoVal.strList ["2"] ≠ GoVal.strList ["2", "1"] := by
  constructor
  · rfl
  · intro h
    injection h with h2
    exact absurd h2 (by decide)

/-- C5 (amended): for every Send whose string form-parses and every key of
the parse result: a fresh key stores the single string (the first value of
that key in this call); a key whose prior value is a string becomes the
list [new, old]; a prior list becomes new :: old; and a prior value of any
other type (e.g. a JSON number) is dropped, leaving the one-element list
[new]. -/
theorem claim_C5_amended (s : SuperAgent) (c : String) (fv : UrlValues)
    (k : String) (hb : s.BounceToRawString = false)
    (hj : goJsonDecode c = none) (hf : goParseQuery c = some fv)
    (hk : k ∈ uvKeys fv) :
    mapLookup (s.SendString c).Data k =
      some (formMergeSpecValue (mapLookup s.Data k) (uvGet fv k)) := by
  have hd : (s.SendString c).Data = formMergeAll fv s.Data := by
    show (s.SendStringCore c).Data = _
    unfold SuperAgent.SendStringCore
    rw [if_neg (by simp [hb]), hj, hf]
  rw [hd]
  exact formFold_lookup_mem fv fv s.Data k (goParseQuery_nodup c fv hf) hk

theorem claim_C5_witness :
    mapLookup (((New.Post "http://u").SendString "a=1").SendString
      "a=2").Data "a" = some (GoVal.strList ["2", "1"]) :=
  claim_C5_amended ((New.Post "http://u").SendString "a=1") "a=2"
    [("a", ["2"])] "a" rfl rfl rfl (by decide)

/-- C6 counterexample: the claim says a struct field with a non-string value
makes `Query` append an error and return normally.  In fact `queryStruct`
runs the unchecked assertion `v.(string)` on every field value, so a
non-string field (a number, say) panics — modelled by the `none` result —
instead of appending an error. -/
theorem claim_C6_counterexample :
    (New.Get "http://u").queryStruct
      (Except.ok [("Size", GoVal.num "1")]) = none := rfl

/-- C6 (amended): for a struct whose marshal/unmarshal image has only string
field values, `queryStruct` adds every field to the query multimap under its
lower-cased key and leaves the error list unchanged; an image containing any
non-string field value panics (unchecked `v.(string)` assertion) rather than
appending an error; and a marshal/unmarshal failure appends that error and
returns normally. -/
theorem claim_C6_amended (s : SuperAgent) (kvs : List (String × String))
    (bad : DataMap) (e : GoError)
    (hbad : ∃ kv ∈ bad, isStrVal kv.2 = false) :
    (s.queryStruct (Except.ok (kvs.map (fun kv => (kv.1, GoVal.str kv.2)))) =
      some
        { s with
            QueryData := kvs.foldl
              (fun q kv => uvAdd q (goToLower kv.1) kv.2) s.QueryData }) ∧
    s.queryStruct (Except.ok bad) = none ∧
    (s.queryStruct (Except.error e) =
      some { s with Errors := s.Errors ++ [e] }) := by
  refine ⟨?_, ?_, rfl⟩
  · simp only [SuperAgent.queryStruct]
    rw [queryStructAdd_strs kvs s.QueryData]
  · simp only [SuperAgent.queryStruct]
    rw [queryStructAdd_bad bad s.QueryData hbad]

theorem claim_C6_witness :
    ((New.Get "http://u").queryStruct (Except.ok [("Size", GoVal.str "50")])
      = some { New.Get "http://u" with QueryData := [("size", ["50"])] }) ∧
    (New.Get "http://u").queryStruct (Except.ok [("N", GoVal.num "1")])
      = none ∧
    ((New.Get "http://u").queryStruct (Except.error GoError.jsonUnmarshal) =
      some { New.Get "http://u" with
        Errors := [GoError.jsonUnmarshal] }) := by
  have h := claim_C6_amended (New.Get "http://u") [("Size", "50")]
    [("N", GoVal.num "1")] GoError.jsonUnmarshal
    ⟨("N", GoVal.num "1"), by simp, rfl⟩
  exact ⟨h.1, h.2.1, h.2.2⟩

/-- C7 counterexample: the claim says the forced content type, when set,
wins the resolution.  `Type("urlencoded")` sets the forced type to the
recognized alias "urlencoded" (no error is recorded), yet the `EndBytes`
switch only honors json/form/xml/text, so with no Content-Type header the
resolved target type stays "json", not the forced alias. -/
theorem claim_C7_counterexample :
    ((New.Post "http://u").SetType "urlencoded").ForceType = "urlencoded" ∧
    ((New.Post "http://u").SetType "urlencoded").Errors = [] ∧
    (resolveTargetType typesList
      ((New.Post "http://u").SetType "urlencoded")).TargetType = "json" :=
  ⟨rfl, rfl, rfl⟩

/-- C7 (amended): dispatch resolves the effective content type with this
precedence: the forced content type when it is one of json, form, xml, text
(the other recognized aliases — html, urlencoded, form-data — are ignored by
the switch and fall through); otherwise, if the builder's Content-Type
header value equals one of the recognized content-type strings, a matching
alias is adopted (whichever matching `Types` entry the map iteration visits
last); otherwise the prior target type (json by default) is kept.  Stated
for every iteration order of the `Types` map. -/
theorem claim_C7_amended (order : List (String × String)) (s : SuperAgent)
    (hperm : order.Perm typesList) :
    ((s.ForceType = "json" ∨ s.ForceType = "form" ∨ s.ForceType = "xml" ∨
        s.ForceType = "text") →
      (resolveTargetType order s).TargetType = s.ForceType) ∧
    (¬(s.ForceType = "json" ∨ s.ForceType = "form" ∨ s.ForceType = "xml" ∨
        s.ForceType = "text") →
      (∀ kv ∈ typesList, strMapGet s.Header "Content-Type" ≠ kv.2) →
      (resolveTargetType order s).TargetType = s.TargetType) ∧
    (¬(s.ForceType = "json" ∨ s.ForceType = "form" ∨ s.ForceType = "xml" ∨
        s.ForceType = "text") →
      (∃ kv ∈ typesList, strMapGet s.Header "Content-Type" = kv.2) →
      ∃ kv ∈ typesList, strMapGet s.Header "Content-Type" = kv.2 ∧
        (resolveTargetType order s).TargetType = kv.1) := by
  refine ⟨?_, ?_, ?_⟩
  · intro hforce
    unfold resolveTargetType
    rw [if_pos hforce]
  · intro hforce hno
    unfold resolveTargetType
    rw [if_neg hforce,
      resolveLoop_no_match order s
        (fun kv hm => hno kv (hperm.subset hm))]
  · intro hforce hex
    unfold resolveTargetType
    rw [if_neg hforce]
    have hex2 : ∃ kv ∈ order, strMapGet s.Header "Content-Type" = kv.2 := by
      rcases hex with ⟨kv, hm, he⟩
      exact ⟨kv, hperm.symm.subset hm, he⟩
    obtain ⟨kv, hm, he, ht⟩ :=
      resolveLoop_match order (strMapGet s.Header "Content-Type") s rfl hex2
    exact ⟨kv, hperm.subset hm, he, ht⟩

theorem claim_C7_witness :
    (resolveTargetType typesList
      ((New.Post "http://u").SetType "form")).TargetType = "form" ∧
    ∃ kv ∈ typesList,
      strMapGet ((New.Post "http://u").Set "Content-Type"
        "application/xml").Header "Content-Type" = kv.2 ∧
      (resolveTargetType typesList ((New.Post "http://u").Set "Content-Type"
        "application/xml")).TargetType = kv.1 := by
  constructor
  · exact (claim_C7_amended typesList _ (List.Perm.refl _)).1
      (Or.inr (Or.inl rfl))
  · exact (claim_C7_amended typesList _ (List.Perm.refl _)).2.2
      (by decide) ⟨("xml", "application/xml"), by decide, rfl⟩

/-- C1: for every builder (built by a verb call followed by any sequence of
Send calls) whose structured body and list body are both non-empty at
dispatch time, dispatch forces raw-string mode; and when the resolved
content type is json, no configuration error accumulated, and the url is
accepted by `net/url` (so `http.NewRequest` materializes the request
rather than returning its parse error), the dispatched body bytes are
exactly the raw concatenation of all string inputs passed to Send, not a
JSON serialization of either body. -/
theorem claim_C1 (url : String) (ops : List SendContent)
    (order : List (String × String)) (s : SuperAgent)
    (hs : s = ops.foldl (fun a c => a.Send c) (New.Post url))
    (hD : ¬ s.Data.isEmpty) (hS : ¬ s.SliceData.isEmpty)
    (hE : s.Errors = [])
    (hJ : (resolveTargetType order s).TargetType = "json")
    (hU : urlParseOk url = true) :
    (endBytesPrepared order s).BounceToRawString = true ∧
    ∃ req, EndBytes order s = Dispatch.send req ∧
      req.body = some (concatStrings (sendStringInputs ops)) := by
  obtain ⟨t, ht⟩ := resolveTargetType_eq order s
  have htj : t = "json" := by rw [ht] at hJ; exact hJ
  subst htj
  have hprep : endBytesPrepared order s =
      { s with TargetType := "json", BounceToRawString := true } := by
    unfold endBytesPrepared
    rw [ht, if_pos ⟨hD, hS⟩]
  have hmeth : s.Method = POST := by
    rw [hs, sendAll_Method]
    rfl
  have hurl : s.Url = url := by
    rw [hs, sendAll_Url]
    rfl
  have hraw : s.RawString = concatStrings (sendStringInputs ops) := by
    rw [hs, sendAll_RawString]
    show "" ++ _ = _
    rw [String.empty_append]
  constructor
  · rw [hprep]
  · refine ⟨finishRequest
      { method := s.Method, url := s.Url, body := some s.RawString,
        headers := reqHeaderSet [] "Content-Type" "application/json",
        queryAdds := [], basicAuth := none, cookies := [] }
      { s with TargetType := "json", BounceToRawString := true }, ?_, ?_⟩
    · unfold EndBytes
      rw [if_neg (by simp [hE]), hprep,
        makeRequest_json_bounce
          { s with TargetType := "json", BounceToRawString := true }
          hmeth rfl rfl
          (by show urlParseOk s.Url = true; rw [hurl]; exact hU)]
    · show some s.RawString = _
      rw [hraw]

theorem claim_C1_witness :
    (endBytesPrepared typesList
      ([SendContent.struct (Except.ok [("a", GoVal.num "1")]),
          SendContent.str "[1]"].foldl (fun a c => a.Send c)
        (New.Post "http://u"))).BounceToRawString = true ∧
    ∃ req, EndBytes typesList
        ([SendContent.struct (Except.ok [("a", GoVal.num "1")]),
            SendContent.str "[1]"].foldl (fun a c => a.Send c)
          (New.Post "http://u")) = Dispatch.send req ∧
      req.body = some "[1]" :=
  claim_C1 "http://u"
    [SendContent.struct (Except.ok [("a", GoVal.num "1")]),
      SendContent.str "[1]"] typesList _ rfl (by decide) (by decide) rfl rfl
    rfl

end Goreq
